import Mathlib

/-!
Verification of the MONAD mint-bot repository (src/server2.js and the
bot.js variant embedded in the README document).

Shallow embedding conventions:
* Byte strings are `List Nat`, each entry intended `< 256`.  Hex
  encoding/decoding used by the source is a bijection between byte
  strings and hex strings and therefore elided: every field that the
  source stores hex-encoded is modelled directly as its byte string.
* The Node `crypto` primitives (`scryptSync`, AES-256-CBC,
  HMAC-SHA256) are external library calls, not repository code.  They
  are modelled as concrete executable functions with the algebraic
  shape the source relies on: `scryptSync` is a deterministic function
  of password and salt producing a 32-byte key; the cipher is a keyed,
  IV-dependent permutation of byte strings with an explicit inverse;
  the HMAC is a deterministic 32-byte digest of key and data.
* `JSON.stringify`/`JSON.parse` of the wallet array is modelled by an
  injective serializer with a verified executable left inverse.
* Errors thrown by the JavaScript are modelled with `Except`.
-/

/-- A deterministic mixing fold used by the executable models of the
crypto primitives (stands in for the internals of scrypt/SHA-256,
which are library code, not repository code). -/
def mix (l : List Nat) : Nat :=
  l.foldl (fun a b => (a * 31 + b) % 65536) 7

/-- Model of Node `crypto.scryptSync(password, salt, 32)`: a
deterministic 32-byte key derived from password and salt. -/
def scryptSync (password salt : List Nat) : List Nat :=
  (List.range 32).map (fun i => (mix (password ++ 0 :: salt) + 131 * i) % 256)

/-- Model of Node `crypto.createHmac('sha256', key).update(data)`:
a deterministic 32-byte digest of key and data. -/
def hmacSha256 (key data : List Nat) : List Nat :=
  (List.range 32).map (fun i => (mix (key ++ (i + 1) :: data)) % 256)

/-- Keystream byte of the cipher model at position `i` for a given key
and IV. Always `< 256`. -/
def ks (key iv : List Nat) (i : Nat) : Nat :=
  (mix key + 131 * mix iv + 197 * i) % 256

/-- Model of AES-256-CBC encryption (`crypto.createCipheriv`): a keyed,
IV-dependent permutation of byte strings, applied from position `i`. -/
def encFrom (key iv : List Nat) : Nat → List Nat → List Nat
  | _, [] => []
  | i, b :: r => (b + ks key iv i) % 256 :: encFrom key iv (i + 1) r

/-- Model of AES-256-CBC decryption (`crypto.createDecipheriv`): the
inverse permutation of `encFrom`, applied from position `i`. -/
def decFrom (key iv : List Nat) : Nat → List Nat → List Nat
  | _, [] => []
  | i, b :: r => (b + (256 - ks key iv i)) % 256 :: decFrom key iv (i + 1) r

/-- Cipher encryption of a whole byte string. -/
def aesEncrypt (key iv pt : List Nat) : List Nat := encFrom key iv 0 pt

/-- Cipher decryption of a whole byte string. -/
def aesDecrypt (key iv ct : List Nat) : List Nat := decFrom key iv 0 ct

/-- Unary length marker used by the serializer model: `n` ones followed
by a zero. -/
def unaryLen (n : Nat) : List Nat := List.replicate n 1 ++ [0]

/-- Model of `JSON.stringify` on the wallet array: an injective,
length-prefixed byte encoding of a list of byte strings. -/
def serializeWallets : List (List Nat) → List Nat
  | [] => []
  | w :: r => unaryLen w.length ++ w ++ serializeWallets r

/-- Reads a unary length marker from the front of a byte string. -/
def readUnary : List Nat → Option (Nat × List Nat)
  | [] => none
  | 0 :: r => some (0, r)
  | 1 :: r =>
    match readUnary r with
    | some (n, rest) => some (n + 1, rest)
    | none => none
  | _ => none

/-- Fuelled worker for the `JSON.parse` model; fuel bounds the number
of decoded elements (the input length always suffices). -/
def deserializeAux : Nat → List Nat → Option (List (List Nat))
  | _, [] => some []
  | 0, _ :: _ => none
  | fuel + 1, b :: t =>
    match readUnary (b :: t) with
    | none => none
    | some (n, rest) =>
      if n ≤ rest.length then
        match deserializeAux fuel (rest.drop n) with
        | some ws => some (rest.take n :: ws)
        | none => none
      else none

/-- Model of `JSON.parse` on the persisted wallet array: left inverse
of `serializeWallets`. -/
def deserializeWallets (l : List Nat) : Option (List (List Nat)) :=
  deserializeAux l.length l

/-- The persisted vault structure of `server2.js` (`encryptWallets`
return value): `{iv, salt, encryptedData, hmac}`, each a byte string
(the source stores them hex-encoded; hex is a bijection and elided). -/
structure EncryptedVault where
  iv : List Nat
  salt : List Nat
  encryptedData : List Nat
  hmac : List Nat
deriving DecidableEq

/-- Errors thrown by `decryptWallets` in `server2.js`:
`integrityError` models the thrown
`Data integrity check failed. Possible tampering detected.` and
`parseError` models a `JSON.parse` failure on the decrypted bytes. -/
inductive VaultError where
  | integrityError
  | parseError
deriving DecidableEq

/-- `encryptWallets(data, password)` from `server2.js` lines 77-94,
with the randomness (`crypto.randomBytes` for iv and salt) passed in
explicitly: derive the key with scrypt, encrypt the serialized data,
and MAC the ciphertext with the derived key (encrypt-then-MAC). -/
def encryptWallets (data : List (List Nat)) (password iv salt : List Nat) :
    EncryptedVault :=
  let key := scryptSync password salt
  let encrypted := aesEncrypt key iv (serializeWallets data)
  let hmac := hmacSha256 key encrypted
  { iv := iv, salt := salt, encryptedData := encrypted, hmac := hmac }

/-- The MAC comparison performed by `server2.js` line 103
(`hmac !== encryptedData.hmac`): short-circuit left-to-right equality.
The second component counts the element comparisons performed, the
standard sequential cost model for this comparison. -/
def macCompareSteps : List Nat → List Nat → Bool × Nat
  | [], [] => (true, 0)
  | [], _ :: _ => (false, 0)
  | _ :: _, [] => (false, 0)
  | a :: as, b :: bs =>
    if a = b then
      let r := macCompareSteps as bs
      (r.1, r.2 + 1)
    else (false, 1)

/-- The boolean verdict of the source's MAC comparison. -/
def macEq (a b : List Nat) : Bool := (macCompareSteps a b).1

/-- `decryptWallets(encryptedData, password)` from `server2.js` lines
96-112, parameterized by the decryption primitive `dec` so that the
independence of the result from `dec` on the MAC-mismatch path
(verify-then-decrypt) is expressible: re-derive the key, recompute the
HMAC of the ciphertext, compare against the stored mac, and only on a
match decrypt and deserialize. -/
def decryptWalletsWith (dec : List Nat → List Nat → List Nat → List Nat)
    (v : EncryptedVault) (password : List Nat) :
    Except VaultError (List (List Nat)) :=
  let key := scryptSync password v.salt
  let hmac := hmacSha256 key v.encryptedData
  if macEq hmac v.hmac then
    match deserializeWallets (dec key v.iv v.encryptedData) with
    | some ws => Except.ok ws
    | none => Except.error VaultError.parseError
  else Except.error VaultError.integrityError

/-- `decryptWallets` with the source's actual decryption primitive. -/
def decryptWallets (v : EncryptedVault) (password : List Nat) :
    Except VaultError (List (List Nat)) :=
  decryptWalletsWith aesDecrypt v password

-- ===== helper lemmas: serializer round trip =====

theorem readUnary_replicate (n : Nat) (t : List Nat) :
    readUnary (List.replicate n 1 ++ 0 :: t) = some (n, t) := by
  induction n with
  | zero => simp [readUnary]
  | succ k ih => simp [List.replicate_succ, readUnary, ih]

theorem readUnary_unaryLen (n : Nat) (t : List Nat) :
    readUnary (unaryLen n ++ t) = some (n, t) := by
  have h : unaryLen n ++ t = List.replicate n 1 ++ 0 :: t := by
    simp [unaryLen]
  rw [h]
  exact readUnary_replicate n t

theorem length_serializeWallets_cons (w : List Nat) (r : List (List Nat)) :
    (serializeWallets (w :: r)).length =
      w.length + 1 + w.length + (serializeWallets r).length := by
  simp [serializeWallets, unaryLen]
  omega

theorem deserializeAux_serializeWallets (ws : List (List Nat)) :
    ∀ fuel, (serializeWallets ws).length ≤ fuel →
      deserializeAux fuel (serializeWallets ws) = some ws := by
  induction ws with
  | nil => intro fuel _; cases fuel <;> simp [serializeWallets, deserializeAux]
  | cons w r ih =>
    intro fuel hfuel
    have hlen := length_serializeWallets_cons w r
    have hne : serializeWallets (w :: r) ≠ [] := by
      intro h
      rw [h] at hlen
      simp at hlen
      omega
    obtain ⟨b, t, hbt⟩ : ∃ b t, serializeWallets (w :: r) = b :: t := by
      cases h : serializeWallets (w :: r) with
      | nil => exact absurd h hne
      | cons b t => exact ⟨b, t, rfl⟩
    obtain ⟨f, rfl⟩ : ∃ f, fuel = f + 1 := by
      rcases fuel with _ | f
      · rw [hbt] at hfuel; simp at hfuel
      · exact ⟨f, rfl⟩
    have hser : serializeWallets (w :: r) =
        unaryLen w.length ++ (w ++ serializeWallets r) := by
      simp [serializeWallets]
    have hread : readUnary (serializeWallets (w :: r)) =
        some (w.length, w ++ serializeWallets r) := by
      rw [hser]
      exact readUnary_unaryLen w.length (w ++ serializeWallets r)
    rw [hbt]
    simp only [deserializeAux]
    rw [← hbt, hread]
    have htake : (w ++ serializeWallets r).take w.length = w := by
      simp
    have hdrop : (w ++ serializeWallets r).drop w.length = serializeWallets r := by
      simp
    have hle : w.length ≤ (w ++ serializeWallets r).length := by
      simp
    have hrec : deserializeAux f (serializeWallets r) = some r := by
      apply ih
      omega
    simp [hle, hdrop, htake, hrec]

theorem deserialize_serialize (ws : List (List Nat)) :
    deserializeWallets (serializeWallets ws) = some ws :=
  deserializeAux_serializeWallets ws _ (Nat.le_refl _)

-- ===== helper lemmas: cipher round trip =====

theorem ks_lt (key iv : List Nat) (i : Nat) : ks key iv i < 256 :=
  Nat.mod_lt _ (by omega)

theorem decFrom_encFrom (key iv : List Nat) :
    ∀ (s : List Nat) (i : Nat), (∀ b ∈ s, b < 256) →
      decFrom key iv i (encFrom key iv i s) = s := by
  intro s
  induction s with
  | nil => intro i _; simp [encFrom, decFrom]
  | cons b r ih =>
    intro i hb
    have hblt : b < 256 := hb b (List.mem_cons_self b r)
    have hk := ks_lt key iv i
    simp only [encFrom, decFrom]
    have h1 : ((b + ks key iv i) % 256 + (256 - ks key iv i)) % 256 = b := by
      omega
    rw [h1, ih (i + 1) (fun x hx => hb x (List.mem_cons_of_mem b hx))]

theorem aesDecrypt_aesEncrypt (key iv s : List Nat) (h : ∀ b ∈ s, b < 256) :
    aesDecrypt key iv (aesEncrypt key iv s) = s :=
  decFrom_encFrom key iv s 0 h

theorem serializeWallets_bytes_lt (ws : List (List Nat))
    (h : ∀ w ∈ ws, ∀ b ∈ w, b < 256) :
    ∀ b ∈ serializeWallets ws, b < 256 := by
  induction ws with
  | nil => simp [serializeWallets]
  | cons w r ih =>
    intro b hb
    simp only [serializeWallets, List.append_assoc, List.mem_append] at hb
    rcases hb with hb | hb | hb
    · simp only [unaryLen, List.mem_append, List.mem_replicate,
        List.mem_singleton] at hb
      rcases hb with ⟨_, rfl⟩ | rfl <;> omega
    · exact h w (List.mem_cons_self w r) b hb
    · exact ih (fun w' hw' => h w' (List.mem_cons_of_mem w hw')) b hb

-- ===== helper lemmas: MAC comparison =====

theorem macCompareSteps_fst_iff (a : List Nat) :
    ∀ b, (macCompareSteps a b).1 = true ↔ a = b := by
  induction a with
  | nil => intro b; cases b <;> simp [macCompareSteps]
  | cons x as ih =>
    intro b
    cases b with
    | nil => simp [macCompareSteps]
    | cons y bs =>
      by_cases hxy : x = y
      · simp [macCompareSteps, hxy, ih bs]
      · simp [macCompareSteps, hxy]

theorem macEq_self (a : List Nat) : macEq a a = true := by
  rw [macEq, macCompareSteps_fst_iff]

theorem macEq_false_of_ne (a b : List Nat) (h : a ≠ b) : macEq a b = false := by
  rw [macEq]
  rcases hb : (macCompareSteps a b).1 with _ | _
  · rfl
  · exact absurd ((macCompareSteps_fst_iff a b).mp hb) h

-- ===== helper lemmas: list set =====

theorem set_ne_of_getD_ne (l : List Nat) :
    ∀ (k : Nat) (y : Nat), k < l.length → y ≠ l.getD k 0 → l.set k y ≠ l := by
  induction l with
  | nil => intro k y hk _; simp at hk
  | cons x xs ih =>
    intro k y hk hy
    cases k with
    | zero =>
      simp only [List.set]
      intro h
      exact hy (by simpa using congrArg (fun t => t.getD 0 0) h)
    | succ k =>
      simp only [List.set]
      intro h
      have htail : xs.set k y = xs := by
        simpa using congrArg List.tail h
      exact ih k y (by simpa using hk) (by simpa using hy) htail

theorem xor_pow_ne (x b : Nat) : x ^^^ 2 ^ b ≠ x := by
  intro h
  have h2 : x ^^^ (x ^^^ 2 ^ b) = x ^^^ x := congrArg (x ^^^ ·) h
  rw [← Nat.xor_assoc, Nat.xor_self, Nat.zero_xor] at h2
  have hp : 0 < 2 ^ b := Nat.pos_pow_of_pos b (by omega)
  omega

theorem hmacSha256_length (key data : List Nat) :
    (hmacSha256 key data).length = 32 := by
  simp [hmacSha256]

/-- A vault equal to `v` except that bit `b` of byte `k` of the stored
mac is flipped. -/
def flipMacBit (v : EncryptedVault) (k b : Nat) : EncryptedVault :=
  { v with hmac := v.hmac.set k (v.hmac.getD k 0 ^^^ 2 ^ b) }

/-- C1. Vault round trip: for every credential collection (a list of
byte-string wallet records) and password, decrypting the vault produced
by `encryptWallets` with the same password returns exactly the original
collection, for any choice of the random iv and salt. -/
theorem vault_round_trip (data : List (List Nat)) (password iv salt : List Nat)
    (hbytes : ∀ w ∈ data, ∀ b ∈ w, b < 256) :
    decryptWallets (encryptWallets data password iv salt) password =
      Except.ok data := by
  unfold decryptWallets decryptWalletsWith encryptWallets
  simp only [macEq_self, if_true]
  rw [aesDecrypt_aesEncrypt _ _ _ (serializeWallets_bytes_lt data hbytes),
    deserialize_serialize]

/-- Witness for C1 at a concrete collection, password, iv and salt. -/
theorem vault_round_trip_witness :
    decryptWallets
        (encryptWallets [[10, 20], [0, 255, 3]] [7, 8] [1, 2] [3, 4]) [7, 8] =
      Except.ok [[10, 20], [0, 255, 3]] :=
  vault_round_trip [[10, 20], [0, 255, 3]] [7, 8] [1, 2] [3, 4] (by decide)

theorem decryptWalletsWith_error_of_mismatch
    (dec : List Nat → List Nat → List Nat → List Nat)
    (v : EncryptedVault) (password : List Nat)
    (hne : hmacSha256 (scryptSync password v.salt) v.encryptedData ≠ v.hmac) :
    decryptWalletsWith dec v password = Except.error VaultError.integrityError := by
  simp only [decryptWalletsWith, macEq_false_of_ne _ _ hne, Bool.false_eq_true,
    if_false]

/-- C2. Tamper and wrong-password detection, verify-then-decrypt.
First conjunct: for every vault and password, whenever the HMAC of the
stored ciphertext under the derived key differs from the stored mac,
decryption fails with the integrity error — and it does so uniformly in
the decryption primitive `dec`, so no decryption of the ciphertext is
attempted before the MAC check succeeds.  (A wrong password or a
tampered ciphertext fails exactly when it produces such a mismatch,
which for real HMAC-SHA256 is its collision-resistance guarantee.)
Second conjunct: flipping any single bit of the stored mac of a vault
produced by `encryptWallets` always causes decryption with the original
password to fail with the integrity error. -/
theorem decrypt_integrity_check :
    (∀ (dec : List Nat → List Nat → List Nat → List Nat)
       (v : EncryptedVault) (password : List Nat),
       hmacSha256 (scryptSync password v.salt) v.encryptedData ≠ v.hmac →
       decryptWalletsWith dec v password = Except.error VaultError.integrityError)
    ∧
    (∀ (data : List (List Nat)) (password iv salt : List Nat) (k b : Nat),
       k < 32 →
       decryptWallets (flipMacBit (encryptWallets data password iv salt) k b)
           password =
         Except.error VaultError.integrityError) := by
  constructor
  · intro dec v password hne
    exact decryptWalletsWith_error_of_mismatch dec v password hne
  · intro data password iv salt k b hk
    have hmacval : (encryptWallets data password iv salt).hmac =
        hmacSha256 (scryptSync password salt)
          (encryptWallets data password iv salt).encryptedData := by
      simp [encryptWallets]
    have hlen : (encryptWallets data password iv salt).hmac.length = 32 := by
      rw [hmacval, hmacSha256_length]
    have hne : hmacSha256 (scryptSync password (flipMacBit
          (encryptWallets data password iv salt) k b).salt)
          (flipMacBit (encryptWallets data password iv salt) k b).encryptedData ≠
        (flipMacBit (encryptWallets data password iv salt) k b).hmac := by
      have hsalt : (encryptWallets data password iv salt).salt = salt := by
        simp [encryptWallets]
      simp only [flipMacBit]
      rw [hsalt, ← hmacval]
      intro h
      exact set_ne_of_getD_ne _ k _ (by omega) (xor_pow_ne _ b) h.symm
    exact decryptWalletsWith_error_of_mismatch aesDecrypt _ password hne

/-- Witness for C2 at concrete inputs: a vault whose stored mac is the
empty byte string always mismatches the 32-byte recomputed digest, so
decryption fails for any decryption primitive; and flipping bit 3 of
byte 0 of the mac of a concretely encrypted vault makes decryption with
the original password fail. -/
theorem decrypt_integrity_check_witness :
    decryptWalletsWith (fun _ _ c => c)
        { iv := [1], salt := [2], encryptedData := [3, 4], hmac := [] } [9] =
      Except.error VaultError.integrityError
    ∧ decryptWallets
        (flipMacBit (encryptWallets [[10, 20]] [7, 8] [1, 2] [3, 4]) 0 3)
        [7, 8] =
      Except.error VaultError.integrityError :=
  ⟨decrypt_integrity_check.1 (fun _ _ c => c)
      { iv := [1], salt := [2], encryptedData := [3, 4], hmac := [] } [9]
      (by decide),
   decrypt_integrity_check.2 [[10, 20]] [7, 8] [1, 2] [3, 4] 0 3 (by decide)⟩

-- ===== C8: the MAC comparison of decryptWallets =====

/-- C8 counterexample. The source compares the recomputed HMAC with the
stored mac by ordinary short-circuit equality (line 103 of
`server2.js`), whose cost model `macCompareSteps` counts the byte
comparisons performed.  Two same-length macs that both differ from the
same recomputed digest, one at the first byte and one at the last,
take a different number of comparisons: the comparison duration DOES
depend on the position of the first differing byte, refuting the
constant-time claim. -/
theorem mac_compare_not_constant_time :
    (macCompareSteps [5, 6, 7, 8] [9, 6, 7, 8]).1 = false
    ∧ (macCompareSteps [5, 6, 7, 8] [5, 6, 7, 9]).1 = false
    ∧ (macCompareSteps [5, 6, 7, 8] [9, 6, 7, 8]).2 = 1
    ∧ (macCompareSteps [5, 6, 7, 8] [5, 6, 7, 9]).2 = 4 := by
  decide

/-- C8 amended. The MAC comparison used by `decryptWallets` is plain
short-circuit equality, not a constant-time comparison: for any two
byte strings whose first differing byte is at position `i`, the
comparison performs exactly `i + 1` byte comparisons, so its duration
grows with the position of the first differing byte. -/
theorem mac_compare_steps_first_diff (a : List Nat) :
    ∀ (b : List Nat) (i : Nat), i < a.length → i < b.length →
      (∀ j, j < i → a.getD j 0 = b.getD j 0) →
      a.getD i 0 ≠ b.getD i 0 →
      (macCompareSteps a b).2 = i + 1 := by
  induction a with
  | nil => intro b i hia _ _ _; simp at hia
  | cons x as ih =>
    intro b i hia hib hagree hdiff
    cases b with
    | nil => simp at hib
    | cons y bs =>
      cases i with
      | zero =>
        have hxy : x ≠ y := by simpa using hdiff
        simp [macCompareSteps, hxy]
      | succ i =>
        have hxy : x = y := by simpa using hagree 0 (Nat.succ_pos i)
        have hrec := ih bs i (by simpa using hia) (by simpa using hib)
          (fun j hj => by simpa using hagree (j + 1) (by omega))
          (by simpa using hdiff)
        simp [macCompareSteps, hxy, hrec]

/-- Witness for C8's amended theorem: comparing `[5,6,7,8]` with
`[5,6,9,8]` (first difference at position 2) takes exactly 3 byte
comparisons. -/
theorem mac_compare_steps_first_diff_witness :
    (macCompareSteps [5, 6, 7, 8] [5, 6, 9, 8]).2 = 2 + 1 :=
  mac_compare_steps_first_diff [5, 6, 7, 8] [5, 6, 9, 8] 2 (by decide)
    (by decide) (by decide) (by decide)

-- ===== C7: loadWallets fallback =====

/-- Log events emitted by `loadWallets` in `server2.js` lines 114-127:
`info` models the `Loaded N wallets` message, `warnNoWallets` the
`No wallets found` warning, and `errorLoadFailed` the error-level
`Failed to load wallets: MESSAGE` entry carrying the failure. -/
inductive Log where
  | info (walletCount : Nat)
  | warnNoWallets
  | errorLoadFailed (e : VaultError)
deriving DecidableEq

/-- `loadWallets()` from `server2.js` lines 114-127, with the wallet
file contents passed in (`none` models a missing file): on a missing
file only a warning is logged; on a successful decrypt the wallets are
installed and an info line logged; if decryption throws, the error is
caught, logged at error level, and the wallet set falls back to empty.
The returned pair is the resulting in-memory wallet set and the log. -/
def loadWallets (file : Option EncryptedVault) (password : List Nat) :
    List (List Nat) × List Log :=
  match file with
  | none => ([], [Log.warnNoWallets])
  | some v =>
    match decryptWallets v password with
    | Except.ok ws => (ws, [Log.info ws.length])
    | Except.error e => ([], [Log.errorLoadFailed e])

/-- C7 counterexample. Not every corrupted vault field surfaces as the
IntegrityError: the HMAC of `server2.js` line 101 is computed over the
ciphertext only, so the iv is unauthenticated.  A vault whose iv field
was corrupted sails through the MAC comparison (third conjunct: the
recomputed digest still matches the stored mac) and the load fails
only later, when decrypting with the wrong iv yields bytes that do not
parse — a parse error, not the integrity error (first conjunct), and
the logged entry carries that parse error (second conjunct), refuting
the claim that loss or corruption of any field surfaces as an
IntegrityError. -/
theorem loadWallets_corrupted_iv_not_integrity :
    decryptWallets
        { encryptWallets [[10, 20]] [7, 8] [1, 2] [3, 4] with iv := [9, 9] }
        [7, 8] =
      Except.error VaultError.parseError
    ∧ loadWallets
        (some { encryptWallets [[10, 20]] [7, 8] [1, 2] [3, 4] with
          iv := [9, 9] }) [7, 8] =
        ([], [Log.errorLoadFailed VaultError.parseError])
    ∧ macEq
        (hmacSha256
          (scryptSync [7, 8]
            ({ encryptWallets [[10, 20]] [7, 8] [1, 2] [3, 4] with
              iv := [9, 9] } : EncryptedVault).salt)
          ({ encryptWallets [[10, 20]] [7, 8] [1, 2] [3, 4] with
            iv := [9, 9] } : EncryptedVault).encryptedData)
        ({ encryptWallets [[10, 20]] [7, 8] [1, 2] [3, 4] with
          iv := [9, 9] } : EncryptedVault).hmac = true :=
  ⟨rfl, rfl, rfl⟩

/-- C7 amended. Vault-load failure recovery: whenever decrypting the
persisted vault fails — with the integrity error when the mac or
anything the MAC covers was corrupted, or with a parse/decipher error
when the unauthenticated iv was corrupted (and a lost field throws
before the check even runs) — `loadWallets` returns normally (the
process does not crash), the credential set falls back to empty, and
the log contains exactly one error-level entry naming the actual
failure — which is distinguishable from the quiet no-file warning and
from every successful-load info line, so the empty credential set is
never silent.  Only failures that the MAC check itself detects surface
as the IntegrityError. -/
theorem loadWallets_failure_recovery (v : EncryptedVault)
    (password : List Nat) (e : VaultError)
    (hfail : decryptWallets v password = Except.error e) :
    loadWallets (some v) password = ([], [Log.errorLoadFailed e])
    ∧ (∀ n, Log.errorLoadFailed e ≠ Log.info n)
    ∧ Log.errorLoadFailed e ≠ Log.warnNoWallets := by
  refine ⟨?_, ?_, ?_⟩
  · simp [loadWallets, hfail]
  · intro n h
    exact Log.noConfusion h
  · intro h
    exact Log.noConfusion h

/-- Witness for C7 at a concrete corrupted vault: the persisted vault
lost its mac field (an empty byte string never matches the 32-byte
recomputed digest), the load logs the integrity failure loudly and
falls back to an empty wallet set. -/
theorem loadWallets_failure_recovery_witness :
    loadWallets
        (some { iv := [1], salt := [2], encryptedData := [3, 4], hmac := [] })
        [9] =
      ([], [Log.errorLoadFailed VaultError.integrityError]) :=
  (loadWallets_failure_recovery
    { iv := [1], salt := [2], encryptedData := [3, 4], hmac := [] } [9]
    VaultError.integrityError (by rfl)).1

-- ===== Submission ledger: saveTxHistory / getTxHistory =====

/-- `saveTxHistory(tx)` from `server2.js` lines 214-228, with the
stored history passed in and returned: push the new entry, and if the
length exceeds 100 keep only the last 100 (`history.slice(-100)`,
which drops from the front).  Entries are kept abstract in `α` (the
source pushes `{...tx, timestamp: Date.now()}` objects). -/
def saveTxHistory {α : Type} (history : List α) (tx : α) : List α :=
  let h := history ++ [tx]
  if h.length > 100 then h.drop (h.length - 100) else h

/-- JavaScript `history.slice(-limit)`: the last `limit` elements —
except that `limit = 0` gives `slice(-0) = slice(0)`, the whole
array. -/
def jsSliceLast {α : Type} (h : List α) (limit : Nat) : List α :=
  if limit = 0 then h else h.drop (h.length - limit)

/-- `getTxHistory(limit = 10)` from `server2.js` lines 230-241, with
the stored history passed in (`none` models a missing history file):
`history.slice(-limit).reverse()`, and `[]` when the file is absent.
It reads the store and never writes it. -/
def getTxHistory {α : Type} (stored : Option (List α)) (limit : Nat) : List α :=
  match stored with
  | none => []
  | some h => (jsSliceLast h limit).reverse

theorem saveTxHistory_eq {α : Type} (h : List α) (x : α) :
    saveTxHistory h x = (h ++ [x]).drop ((h ++ [x]).length - 100) := by
  simp only [saveTxHistory]
  by_cases hc : (h ++ [x]).length > 100
  · rw [if_pos hc]
  · rw [if_neg hc]
    have h0 : (h ++ [x]).length - 100 = 0 := by omega
    rw [h0, List.drop_zero]

theorem length_saveTxHistory_le {α : Type} (h : List α) (x : α) :
    (saveTxHistory h x).length ≤ 100 := by
  simp only [saveTxHistory]
  by_cases hc : (h ++ [x]).length > 100
  · rw [if_pos hc, List.length_drop]
    omega
  · rw [if_neg hc]
    omega

theorem lastN_append_right {α : Type} (s t : List α) (n : Nat)
    (h : n ≤ t.length) :
    (s ++ t).drop ((s ++ t).length - n) = t.drop (t.length - n) := by
  have heq : (s ++ t).length - n = s.length + (t.length - n) := by
    rw [List.length_append]
    omega
  rw [heq, List.drop_append]

theorem foldl_saveTxHistory {α : Type} (l : List α) :
    ∀ acc : List α, acc.length ≤ 100 →
      List.foldl saveTxHistory acc l = (acc ++ l).drop ((acc ++ l).length - 100) := by
  induction l with
  | nil =>
    intro acc hacc
    simp only [List.foldl_nil, List.append_nil]
    have h0 : acc.length - 100 = 0 := by omega
    rw [h0, List.drop_zero]
  | cons x t ih =>
    intro acc hacc
    rw [List.foldl_cons, ih _ (length_saveTxHistory_le acc x), saveTxHistory_eq]
    have hxt : acc ++ x :: t = (acc ++ [x]) ++ t := by simp
    rw [hxt]
    by_cases hc : (acc ++ [x]).length ≤ 100
    · have h0 : (acc ++ [x]).length - 100 = 0 := by omega
      rw [h0, List.drop_zero]
    · have hsplit : (acc ++ [x]) ++ t =
          (acc ++ [x]).take ((acc ++ [x]).length - 100) ++
            ((acc ++ [x]).drop ((acc ++ [x]).length - 100) ++ t) := by
        rw [← List.append_assoc, List.take_append_drop]
      rw [hsplit, lastN_append_right
        ((acc ++ [x]).take ((acc ++ [x]).length - 100))
        ((acc ++ [x]).drop ((acc ++ [x]).length - 100) ++ t) 100
        (by rw [List.length_append, List.length_drop]; omega)]

/-- C6. Ledger bound and eviction: appending 150 entries in sequence
to an initially empty ledger leaves exactly the most recent 100 (the
oldest 50 evicted from the front), `getTxHistory` with limit 10 then
returns the last 10 entries most-recent-first without touching the
store (it is a pure read of the stored list), and after any sequence
of appends the ledger holds at most 100 entries. -/
theorem ledger_bound_and_recent (l : List Nat) :
    (l.length = 150 →
      List.foldl saveTxHistory [] l = l.drop 50
      ∧ getTxHistory (some (List.foldl saveTxHistory [] l)) 10 =
          (l.drop 140).reverse)
    ∧ (List.foldl saveTxHistory [] l).length ≤ 100 := by
  have hf : List.foldl saveTxHistory [] l = l.drop (l.length - 100) := by
    have := foldl_saveTxHistory l [] (by simp)
    simpa using this
  constructor
  · intro h150
    have hfold : List.foldl saveTxHistory [] l = l.drop 50 := by
      rw [hf, h150]
    refine ⟨hfold, ?_⟩
    rw [hfold]
    simp only [getTxHistory, jsSliceLast, if_neg (by omega : (10 : Nat) ≠ 0)]
    have hlen : (l.drop 50).length = 100 := by
      rw [List.length_drop, h150]
    rw [hlen]
    rw [show (100 : Nat) - 10 = 90 from rfl, List.drop_drop]
  · rw [hf, List.length_drop]
    omega

/-- Witness for C6 at the concrete entry sequence `0, …, 149`. -/
theorem ledger_bound_and_recent_witness :
    List.foldl saveTxHistory [] (List.range 150) = (List.range 150).drop 50
    ∧ getTxHistory (some (List.foldl saveTxHistory [] (List.range 150))) 10 =
        ((List.range 150).drop 140).reverse :=
  (ledger_bound_and_recent (List.range 150)).1 (by simp)

/-- C10. History read with zero limit: `getTxHistory` with limit 0 on a
stored history returns the whole history in reverse insertion order
(`slice(-0)` selects the entire array), in particular a non-empty
result for a non-empty store, while a missing history file yields the
empty sequence. -/
theorem getTxHistory_zero_limit (h : List Nat) :
    getTxHistory (some h) 0 = h.reverse
    ∧ (h ≠ [] → getTxHistory (some h) 0 ≠ [])
    ∧ getTxHistory (none : Option (List Nat)) 0 = [] := by
  refine ⟨?_, ?_, rfl⟩
  · simp [getTxHistory, jsSliceLast]
  · intro hne
    simp [getTxHistory, jsSliceLast, hne]

/-- Witness for C10 at the concrete stored history `[1, 2, 3]`. -/
theorem getTxHistory_zero_limit_witness :
    getTxHistory (some [1, 2, 3]) 0 = [3, 2, 1]
    ∧ getTxHistory (some [1, 2, 3]) 0 ≠ [] :=
  ⟨(getTxHistory_zero_limit [1, 2, 3]).1,
   (getTxHistory_zero_limit [1, 2, 3]).2.1 (by decide)⟩

-- ===== Transaction submitter: sendMonadMintTx =====

/-- Errors thrown inside `sendMonadMintTx`: `timedOut` models the
`Transaction timed out` rejection of the 60-second race, `remoteError`
models `sendSignedTransaction` rejecting (for example because the
account cannot cover `gas * gasPrice`), and `invalidKey` models
`privateKeyToAccount` throwing on a malformed wallet key. -/
inductive JsError where
  | timedOut
  | remoteError (code : Nat)
  | invalidKey
deriving DecidableEq

/-- A persisted transaction-history entry as written by
`sendMonadMintTx` through `saveTxHistory`: either
`{address, txHash, status: 'success'}` or
`{address, error, status: 'failed'}` (the timestamp added by
`saveTxHistory` is not relevant to any claim and elided). -/
inductive TxRecord where
  | success (address txHash : Nat)
  | failed (address : Nat) (err : JsError)
deriving DecidableEq

/-- Chat messages sent by `sendMonadMintTx`. -/
inductive MintMsg where
  | retrying (attempt : Nat)
  | finalFailed (e : JsError)
  | minted (txHash : Nat)
deriving DecidableEq

/-- Observable events of one `sendMonadMintTx` call, in order:
`fetchNonce n` models `await web3.eth.getTransactionCount(addr,
'pending')` returning `n`, `submit n` models
`web3.eth.sendSignedTransaction` being invoked with a transaction
carrying nonce `n`, `msg` a `bot.sendMessage`, and `ledger` a
`saveTxHistory` append. -/
inductive Ev where
  | fetchNonce (nonce : Nat)
  | submit (nonce : Nat)
  | msg (m : MintMsg)
  | ledger (e : TxRecord)
deriving DecidableEq

/-- The environment a `sendMonadMintTx` call runs against:
`account` is the result of `privateKeyToAccount(walletKey)` (`none`
models it throwing on a malformed key), `nonces i` the value the
remote node returns for the `getTransactionCount` of attempt `i`
(`i = retryCount`), `outcomes i` the result of attempt `i`'s
submission race (`none` = receipt arrives, `some e` = it rejects with
`e`), and `hashes i` the receipt's transaction hash on success. -/
structure MintEnv where
  account : Option Nat
  nonces : Nat → Nat
  outcomes : Nat → Option JsError
  hashes : Nat → Nat

/-- Worker for `sendMonadMintTx` from `server2.js` lines 176-211.
`retryCount` is the source's retry counter; `fuel` is a structural
bound on the recursion (the caller passes `3 - retryCount`, which the
guard `retryCount < 2` never exhausts).  The first component models
the promise's fate: `Except.ok (some h)` = resolves with a receipt,
`Except.ok none` = resolves with `undefined` after the final failure
path, `Except.error e` = the promise rejects with `e` (which happens
exactly when `privateKeyToAccount` throws inside the final catch
block, before `saveTxHistory` runs).  The second component is the
ordered event trace. -/
def sendMintAux (env : MintEnv) : Nat → Nat → Except JsError (Option Nat) × List Ev
  | _, 0 => (Except.ok none, [])
  | retryCount, fuel + 1 =>
    match env.account with
    | none =>
      if retryCount < 2 then
        let r := sendMintAux env (retryCount + 1) fuel
        (r.1, Ev.msg (MintMsg.retrying (retryCount + 1)) :: r.2)
      else
        (Except.error JsError.invalidKey,
          [Ev.msg (MintMsg.finalFailed JsError.invalidKey)])
    | some addr =>
      let nonce := env.nonces retryCount
      match env.outcomes retryCount with
      | none =>
        let h := env.hashes retryCount
        (Except.ok (some h),
          [Ev.fetchNonce nonce, Ev.submit nonce, Ev.msg (MintMsg.minted h),
            Ev.ledger (TxRecord.success addr h)])
      | some e =>
        if retryCount < 2 then
          let r := sendMintAux env (retryCount + 1) fuel
          (r.1, Ev.fetchNonce nonce :: Ev.submit nonce ::
            Ev.msg (MintMsg.retrying (retryCount + 1)) :: r.2)
        else
          (Except.ok none,
            [Ev.fetchNonce nonce, Ev.submit nonce,
              Ev.msg (MintMsg.finalFailed e),
              Ev.ledger (TxRecord.failed addr e)])

/-- `sendMonadMintTx(walletKey, msg)` with the source's default
`retryCount = 0`. -/
def sendMonadMintTx (env : MintEnv) : Except JsError (Option Nat) × List Ev :=
  sendMintAux env 0 3

/-- The nonces fetched from the remote node during a trace, in order. -/
def fetchedNonces (evs : List Ev) : List Nat :=
  evs.filterMap fun e =>
    match e with
    | Ev.fetchNonce n => some n
    | _ => none

/-- The nonces carried by submitted transactions in a trace, in order. -/
def submittedNonces (evs : List Ev) : List Nat :=
  evs.filterMap fun e =>
    match e with
    | Ev.submit n => some n
    | _ => none

/-- The history entries appended during a trace, in order. -/
def ledgerAppends (evs : List Ev) : List TxRecord :=
  evs.filterMap fun e =>
    match e with
    | Ev.ledger r => some r
    | _ => none

/-- C4. Retry bound, stated for any environment whose wallet key parses
(`privateKeyToAccount` succeeds).  First conjunct: if every attempt's
remote call fails (rejection or timeout), exactly 3 attempts are made —
the trace fetches a fresh nonce and submits exactly once per attempt,
in attempt order — and exactly one terminal record is appended to the
history: a Failed entry carrying the third attempt's error.  Second
conjunct: if the first two attempts fail and the third succeeds, the
promise resolves with the third attempt's receipt, the one appended
record is a Success entry with the third attempt's hash, and the last
submitted transaction carries the third attempt's freshly fetched
nonce. -/
theorem sendMonadMintTx_retry_bound (env : MintEnv) (addr : Nat)
    (e0 e1 e2 : JsError) (hacc : env.account = some addr) :
    (env.outcomes 0 = some e0 → env.outcomes 1 = some e1 →
     env.outcomes 2 = some e2 →
      (sendMonadMintTx env).1 = Except.ok none
      ∧ fetchedNonces (sendMonadMintTx env).2 =
          [env.nonces 0, env.nonces 1, env.nonces 2]
      ∧ submittedNonces (sendMonadMintTx env).2 =
          [env.nonces 0, env.nonces 1, env.nonces 2]
      ∧ ledgerAppends (sendMonadMintTx env).2 = [TxRecord.failed addr e2])
    ∧
    (env.outcomes 0 = some e0 → env.outcomes 1 = some e1 →
     env.outcomes 2 = none →
      (sendMonadMintTx env).1 = Except.ok (some (env.hashes 2))
      ∧ ledgerAppends (sendMonadMintTx env).2 =
          [TxRecord.success addr (env.hashes 2)]
      ∧ (submittedNonces (sendMonadMintTx env).2).getLast? =
          some (env.nonces 2)
      ∧ (fetchedNonces (sendMonadMintTx env).2).getLast? =
          some (env.nonces 2)) := by
  constructor
  · intro h0 h1 h2
    simp [sendMonadMintTx, sendMintAux, hacc, h0, h1, h2, fetchedNonces,
      submittedNonces, ledgerAppends]
  · intro h0 h1 h2
    simp [sendMonadMintTx, sendMintAux, hacc, h0, h1, h2, fetchedNonces,
      submittedNonces, ledgerAppends]

/-- Witness for C4 at a concrete environment: the wallet key parses to
address 7, attempt `i` is offered nonce `40 + i`, and every attempt
times out — the run makes exactly the three nonce fetches and
submissions `40, 41, 42` and records one Failed entry. -/
theorem sendMonadMintTx_retry_bound_witness :
    (sendMonadMintTx
        { account := some 7, nonces := fun i => 40 + i,
          outcomes := fun _ => some JsError.timedOut,
          hashes := fun _ => 0 }).1 = Except.ok none
    ∧ fetchedNonces (sendMonadMintTx
        { account := some 7, nonces := fun i => 40 + i,
          outcomes := fun _ => some JsError.timedOut,
          hashes := fun _ => 0 }).2 = [40, 41, 42]
    ∧ submittedNonces (sendMonadMintTx
        { account := some 7, nonces := fun i => 40 + i,
          outcomes := fun _ => some JsError.timedOut,
          hashes := fun _ => 0 }).2 = [40, 41, 42]
    ∧ ledgerAppends (sendMonadMintTx
        { account := some 7, nonces := fun i => 40 + i,
          outcomes := fun _ => some JsError.timedOut,
          hashes := fun _ => 0 }).2 = [TxRecord.failed 7 JsError.timedOut] :=
  (sendMonadMintTx_retry_bound
    { account := some 7, nonces := fun i => 40 + i,
      outcomes := fun _ => some JsError.timedOut, hashes := fun _ => 0 }
    7 JsError.timedOut JsError.timedOut JsError.timedOut rfl).1 rfl rfl rfl

/-- C9 counterexample. The promise returned by `sendMonadMintTx` can
reject: with a wallet key that `privateKeyToAccount` cannot parse,
every attempt's try block throws, and the final catch block itself
calls `privateKeyToAccount(walletKey)` while building the history
entry — that call throws inside the catch, so the async function
rejects, and it does so before `saveTxHistory` runs, so no failed
ledger entry is appended either.  A batch `Promise.all` over such a
wallet therefore rejects as well, refuting the claim that the promise
never rejects. -/
theorem sendMonadMintTx_rejects_on_invalid_key :
    (sendMonadMintTx
        { account := none, nonces := fun _ => 0,
          outcomes := fun _ => some JsError.timedOut,
          hashes := fun _ => 0 }).1 = Except.error JsError.invalidKey
    ∧ ledgerAppends (sendMonadMintTx
        { account := none, nonces := fun _ => 0,
          outcomes := fun _ => some JsError.timedOut,
          hashes := fun _ => 0 }).2 = [] :=
  ⟨rfl, rfl⟩

/-- C9 amended. For every wallet key that `privateKeyToAccount` can
parse, the promise returned by `sendMonadMintTx` resolves and never
rejects, whatever the remote outcomes are: every attempt error is
caught, and after the retry budget is exhausted it resolves with no
value after appending a failed ledger entry, so a batch `Promise.all`
over wallets with parseable keys always resolves.  (When the key
itself is malformed, the final catch block rethrows from
`privateKeyToAccount` and the promise rejects — see the
counterexample.) -/
theorem sendMonadMintTx_resolves_of_valid_key (env : MintEnv) (addr : Nat)
    (hacc : env.account = some addr) :
    ∃ v, (sendMonadMintTx env).1 = Except.ok v := by
  rcases h0 : env.outcomes 0 with _ | e0
  · exact ⟨some (env.hashes 0), by simp [sendMonadMintTx, sendMintAux, hacc, h0]⟩
  · rcases h1 : env.outcomes 1 with _ | e1
    · exact ⟨some (env.hashes 1),
        by simp [sendMonadMintTx, sendMintAux, hacc, h0, h1]⟩
    · rcases h2 : env.outcomes 2 with _ | e2
      · exact ⟨some (env.hashes 2),
          by simp [sendMonadMintTx, sendMintAux, hacc, h0, h1, h2]⟩
      · exact ⟨none,
          by simp [sendMonadMintTx, sendMintAux, hacc, h0, h1, h2]⟩

/-- Witness for C9's amended theorem at a concrete environment whose
key parses and whose attempts all time out. -/
theorem sendMonadMintTx_resolves_of_valid_key_witness :
    ∃ v, (sendMonadMintTx
        { account := some 7, nonces := fun _ => 0,
          outcomes := fun _ => some JsError.timedOut,
          hashes := fun _ => 0 }).1 = Except.ok v :=
  sendMonadMintTx_resolves_of_valid_key
    { account := some 7, nonces := fun _ => 0,
      outcomes := fun _ => some JsError.timedOut, hashes := fun _ => 0 }
    7 rfl

-- ===== The bot.js variant: mintNFT =====

/-- Chat messages sent by `mintNFT` in the bot.js variant
(src/unnamed/part_000 lines 234-301). -/
inductive NFTMsg where
  | notInitialized
  | insufficientBalance (address : Nat)
  | minting (address : Nat)
  | minted (address txHash : Nat)
  | mintFailed (e : JsError)
deriving DecidableEq

/-- Observable events of one `mintNFT` call: chat messages and the
single `sendSignedTransaction` invocation (the function never fetches
a nonce — its transaction carries no nonce field — so no nonce-fetch
event exists). -/
inductive NFTEv where
  | msg (m : NFTMsg)
  | submit
deriving DecidableEq

/-- Environment of one `mintNFT` call: whether the contract was
initialized, the parsed account (`none` models `privateKeyToAccount`
throwing), the `getBalance` result, the configured gas limit and
price, and the submission outcome. -/
structure NFTEnv where
  contractInitialized : Bool
  account : Option Nat
  balance : Nat
  gasLimit : Nat
  gasPrice : Nat
  submitOutcome : Option JsError
  txHash : Nat

/-- `mintNFT(walletKey, chatId)` from src/unnamed/part_000 lines
234-301: bail out if the contract is not initialized; parse the key
(a parse failure is caught and reported); compare the balance against
`gasLimit * gasPrice` (the `BigInt` comparison, modelled on `Nat`) and
bail out with the insufficient-balance message before building or
submitting anything; otherwise announce, sign, submit once (no
retries), and report success or the caught error. -/
def mintNFT (env : NFTEnv) : List NFTEv :=
  if env.contractInitialized = false then [NFTEv.msg NFTMsg.notInitialized]
  else
    match env.account with
    | none => [NFTEv.msg (NFTMsg.mintFailed JsError.invalidKey)]
    | some addr =>
      if env.balance < env.gasLimit * env.gasPrice then
        [NFTEv.msg (NFTMsg.insufficientBalance addr)]
      else
        match env.submitOutcome with
        | none => [NFTEv.msg (NFTMsg.minting addr), NFTEv.submit,
            NFTEv.msg (NFTMsg.minted addr env.txHash)]
        | some e => [NFTEv.msg (NFTMsg.minting addr), NFTEv.submit,
            NFTEv.msg (NFTMsg.mintFailed e)]

/-- C5 counterexample. In `server2.js`, submission requests are handled
by `sendMonadMintTx`, which performs no balance pre-flight at all: in a
run where the remote node rejects every attempt (as it does when the
account cannot cover `gasLimit * gasPrice`), the request still fetches
a nonce on every one of its three attempts and ends in an ordinary
Failed history entry — a nonce IS fetched and retries ARE attempted,
refuting the claim that every low-balance request yields an immediate
insufficient-balance error before any nonce is fetched. -/
theorem sendMonadMintTx_no_balance_preflight :
    fetchedNonces (sendMonadMintTx
        { account := some 7, nonces := fun i => 40 + i,
          outcomes := fun _ => some (JsError.remoteError 1),
          hashes := fun _ => 0 }).2 = [40, 41, 42]
    ∧ ledgerAppends (sendMonadMintTx
        { account := some 7, nonces := fun i => 40 + i,
          outcomes := fun _ => some (JsError.remoteError 1),
          hashes := fun _ => 0 }).2 =
        [TxRecord.failed 7 (JsError.remoteError 1)] :=
  ⟨rfl, rfl⟩

/-- C5 amended. The balance pre-flight exists only in the bot.js
variant: there, whenever the credential's balance is below
`gasLimit * gasPrice`, `mintNFT` sends the insufficient-balance
message immediately and returns — nothing is submitted, there is no
retry, and no nonce is ever fetched (`mintNFT` has no nonce-fetch
step at all).  The `server2.js` submitter performs no such check. -/
theorem mintNFT_insufficient_balance (env : NFTEnv) (addr : Nat)
    (hinit : env.contractInitialized = true) (hacc : env.account = some addr)
    (hbal : env.balance < env.gasLimit * env.gasPrice) :
    mintNFT env = [NFTEv.msg (NFTMsg.insufficientBalance addr)]
    ∧ NFTEv.submit ∉ mintNFT env := by
  have h : mintNFT env = [NFTEv.msg (NFTMsg.insufficientBalance addr)] := by
    simp [mintNFT, hinit, hacc, hbal]
  refine ⟨h, ?_⟩
  rw [h]
  simp

/-- Witness for C5's amended theorem: address 5 holds 10 wei against a
worst-case gas cost of 500000 wei; the call reports the shortfall and
submits nothing. -/
theorem mintNFT_insufficient_balance_witness :
    mintNFT
        { contractInitialized := true, account := some 5, balance := 10,
          gasLimit := 500000, gasPrice := 1,
          submitOutcome := some (JsError.remoteError 0), txHash := 0 } =
      [NFTEv.msg (NFTMsg.insufficientBalance 5)]
    ∧ NFTEv.submit ∉ mintNFT
        { contractInitialized := true, account := some 5, balance := 10,
          gasLimit := 500000, gasPrice := 1,
          submitOutcome := some (JsError.remoteError 0), txHash := 0 } :=
  mintNFT_insufficient_balance
    { contractInitialized := true, account := some 5, balance := 10,
      gasLimit := 500000, gasPrice := 1,
      submitOutcome := some (JsError.remoteError 0), txHash := 0 }
    5 rfl rfl (by decide)

-- ===== Nonce acquisition under concurrency =====

/-- One step of a submission task for a single address, at the points
where `sendMonadMintTx` awaits: `fetch t` models task `t`'s
`await web3.eth.getTransactionCount(address, 'pending')` resolving,
and `send t` models task `t`'s `sendSignedTransaction` being accepted
by the remote node.  `/mint` launches the tasks concurrently through
`Promise.all`, so any interleaving of the tasks' steps is a possible
resolution order of the awaited promises. -/
inductive NStep where
  | fetch (task : Nat)
  | send (task : Nat)

/-- State of the remote node and the in-flight tasks for one address:
`pending` is the node's pending transaction count (what
`getTransactionCount(addr, 'pending')` returns, incremented when a
submission is accepted), `fetched t` the nonce task `t` has read,
`issued` the nonces handed out by fetches in order, and `sent` the
nonces of accepted submissions in order. -/
structure NonceSim where
  pending : Nat
  fetched : Nat → Option Nat
  issued : List Nat
  sent : List Nat

/-- Initial state: no local nonce state exists, the node's pending
count is `p`, no task has fetched. -/
def initSim (p : Nat) : NonceSim :=
  { pending := p, fetched := fun _ => none, issued := [], sent := [] }

/-- Interpreter for one step: a fetch reads the current pending count
(the code keeps no local counter — every attempt asks the node), a
send submits the fetched nonce and the node then counts one more
pending transaction. -/
def nonceStep (s : NonceSim) : NStep → NonceSim
  | NStep.fetch t =>
    { s with
      fetched := fun u => if u = t then some s.pending else s.fetched u,
      issued := s.issued ++ [s.pending] }
  | NStep.send t =>
    match s.fetched t with
    | some n => { s with pending := s.pending + 1, sent := s.sent ++ [n] }
    | none => s

/-- Runs a schedule of task steps from a state. -/
def runNonce (sched : List NStep) (s : NonceSim) : NonceSim :=
  sched.foldl nonceStep s

/-- C3 counterexample. Two concurrent submissions for the same address
(as `Promise.all` in the `/mint` handler permits) can both have their
`getTransactionCount(addr, 'pending')` calls resolve before either
submission reaches the node: starting from pending count 5, the
schedule fetch 0, fetch 1 issues the nonce 5 to BOTH tasks, so the
nonces obtained for the address are neither strictly increasing nor
free of repeats, refuting the claim. -/
theorem concurrent_nonce_duplicate :
    (runNonce [NStep.fetch 0, NStep.fetch 1] (initSim 5)).issued = [5, 5]
    ∧ ¬ List.Pairwise (fun a b => a < b)
        (runNonce [NStep.fetch 0, NStep.fetch 1] (initSim 5)).issued := by
  refine ⟨rfl, ?_⟩
  intro h
  rw [show (runNonce [NStep.fetch 0, NStep.fetch 1] (initSim 5)).issued =
    [5, 5] from rfl] at h
  simp at h

/-- The fully serialized schedule for `k` submissions of one address:
each task's send completes before the next task's fetch begins. -/
def seqSched : Nat → List NStep
  | 0 => []
  | k + 1 => seqSched k ++ [NStep.fetch k, NStep.send k]

theorem runNonce_seqSched (k p : Nat) :
    (runNonce (seqSched k) (initSim p)).pending = p + k
    ∧ (runNonce (seqSched k) (initSim p)).issued = List.range' p k
    ∧ (runNonce (seqSched k) (initSim p)).sent = List.range' p k := by
  induction k with
  | zero => exact ⟨rfl, rfl, rfl⟩
  | succ k ih =>
    obtain ⟨hp, hi, hs⟩ := ih
    have hrun : runNonce (seqSched (k + 1)) (initSim p) =
        nonceStep (nonceStep (runNonce (seqSched k) (initSim p))
          (NStep.fetch k)) (NStep.send k) := by
      simp [seqSched, runNonce, List.foldl_append]
    have hfetch : nonceStep (runNonce (seqSched k) (initSim p)) (NStep.fetch k) =
        { pending := p + k,
          fetched := fun u => if u = k then some (p + k)
            else (runNonce (seqSched k) (initSim p)).fetched u,
          issued := List.range' p k ++ [p + k],
          sent := List.range' p k } := by
      simp [nonceStep, hp, hi, hs]
    rw [hrun, hfetch]
    simp only [nonceStep, if_pos rfl]
    refine ⟨rfl, ?_, ?_⟩
    · simp [List.range'_concat]
    · simp [List.range'_concat]

/-- C3 amended. The nonces `sendMonadMintTx` obtains come from the
node's pending count with no local allocator and no per-address lock.
When the submissions for an address are fully serialized — each send
is accepted before the next fetch resolves, the schedule `seqSched` —
the `k` issued nonces are exactly `p, p+1, …, p+k-1`: strictly
increasing, never reused, and the accepted submissions carry them in
the same order.  Under concurrent requests, however, two fetches can
resolve before either send and the same nonce is issued twice (see the
counterexample), so the unqualified claim fails. -/
theorem serialized_nonces_strictly_increasing (k p : Nat) :
    (runNonce (seqSched k) (initSim p)).issued = List.range' p k
    ∧ (runNonce (seqSched k) (initSim p)).sent =
        (runNonce (seqSched k) (initSim p)).issued
    ∧ List.Pairwise (fun a b => a < b)
        (runNonce (seqSched k) (initSim p)).issued := by
  obtain ⟨_, hi, hs⟩ := runNonce_seqSched k p
  refine ⟨hi, by rw [hi, hs], ?_⟩
  rw [hi]
  exact List.pairwise_lt_range' p k
